import Mathlib

set_option maxRecDepth 40000

/-!
Shallow embedding of `bech32_py_probe.py` (the bech32 address probe):
the `CHARSET` alphabet, `hrp_expand`, `polymod` and `bech32_decode`,
together with the encode direction described by the specification.
Strings are modelled as lists of ASCII code points (`List Nat`), and
Python's `str.lower` / `str.upper` as ASCII case folding, which agrees
with Python on the code-point range the decoder accepts ([33,126]).
-/

/-- The 32-character bech32 alphabet `"qpzry9x8gf2tvdw0s3jn54khce6mua7l"`
as ASCII code points; the index of a character is its 5-bit value. -/
def CHARSET : List Nat :=
  [113, 112, 122, 114, 121, 57, 120, 56, 103, 102, 50, 116, 118, 100, 119, 48,
   115, 51, 106, 110, 53, 52, 107, 104, 99, 101, 54, 109, 117, 97, 55, 108]

/-- The five 30-bit generator constants of the checksum. -/
def GENERATORS : List Nat := [0x3b6a57b2, 0x26508e6d, 0x1ea119fa, 0x3d4233dd, 0x2a1462b3]

/-- `hrp_expand(hrp)`: high 3 bits of each prefix character, a zero, then the
low 5 bits of each prefix character. -/
def hrp_expand (hrp : List Nat) : List Nat :=
  hrp.map (fun x => x >>> 5) ++ [0] ++ hrp.map (fun x => x &&& 31)

/-- One iteration of the `polymod` loop body: shift the 30-bit register left
by 5 bits, xor in the next value, then xor in the generators selected by the
bits shifted out of the top. -/
def polymodStep (chk v : Nat) : Nat :=
  let top := chk >>> 25
  let chk1 := ((chk &&& 0x1ffffff) <<< 5) ^^^ v
  (List.range 5).foldl (fun c i => if (top >>> i) &&& 1 = 1 then c ^^^ GENERATORS.getD i 0 else c) chk1

/-- `polymod(values)`: the BCH-style checksum accumulator, starting at 1. -/
def polymod (values : List Nat) : Nat :=
  values.foldl polymodStep 1

/-- ASCII lower-casing of one code point, as Python's `str.lower` acts on
the ASCII range. -/
def lowerChar (c : Nat) : Nat := if 65 ≤ c ∧ c ≤ 90 then c + 32 else c

/-- ASCII upper-casing of one code point, as Python's `str.upper` acts on
the ASCII range. -/
def upperChar (c : Nat) : Nat := if 97 ≤ c ∧ c ≤ 122 then c - 32 else c

/-- `s.lower()` on an ASCII string. -/
def asciiLower (s : List Nat) : List Nat := s.map lowerChar

/-- `s.upper()` on an ASCII string. -/
def asciiUpper (s : List Nat) : List Nat := s.map upperChar

/-- Python's `str.rfind`: index of the last occurrence of `c`, `-1` if absent. -/
def rfind (l : List Nat) (c : Nat) : Int :=
  match l with
  | [] => -1
  | x :: xs =>
    let r := rfind xs c
    if 0 ≤ r then r + 1 else if x = c then 0 else -1

/-- The exceptions `bech32_decode` can raise. -/
inductive DecodeError where
  | invalidCharRange : DecodeError
  | mixedCase : DecodeError
  | invalidSeparatorPosition : DecodeError
  | invalidCharacter : Nat → DecodeError
deriving DecidableEq, Repr

instance {e a : Type} [DecidableEq e] [DecidableEq a] : DecidableEq (Except e a) :=
  fun x y =>
    match x, y with
    | .ok u, .ok w =>
      if h : u = w then isTrue (by rw [h]) else isFalse (fun hc => h (Except.ok.inj hc))
    | .error u, .error w =>
      if h : u = w then isTrue (by rw [h]) else isFalse (fun hc => h (Except.error.inj hc))
    | .ok _, .error _ => isFalse (fun hc => Except.noConfusion hc)
    | .error _, .ok _ => isFalse (fun hc => Except.noConfusion hc)

/-- The loop mapping each data-part character through `CHARSET_MAP`,
raising `invalid char` at the first character outside the alphabet. -/
def mapCharset (l : List Nat) : Except DecodeError (List Nat) :=
  match l with
  | [] => .ok []
  | ch :: rest =>
    if ch ∈ CHARSET then
      match mapCharset rest with
      | .ok t => .ok (CHARSET.indexOf ch :: t)
      | .error e => .error e
    else .error (.invalidCharacter ch)

/-- `bech32_decode(bech)`: structural validation, split at the last `'1'`
(code point 49), map the data part through the alphabet, and return
`(hrp, data, polymod, valid)`.  The checksum is reported, not enforced. -/
def bech32_decode (bech : List Nat) : Except DecodeError (List Nat × List Nat × Nat × Bool) :=
  if bech.any (fun x => x < 33 ∨ 126 < x) then .error .invalidCharRange
  else if asciiLower bech ≠ bech ∧ asciiUpper bech ≠ bech then .error .mixedCase
  else
    let b := asciiLower bech
    let pos := rfind b 49
    if pos < 1 ∨ pos + 7 > (b.length : Int) then .error .invalidSeparatorPosition
    else
      let p := pos.toNat
      let hrp := b.take p
      let dataPart := b.drop (p + 1)
      match mapCharset dataPart with
      | .error e => .error e
      | .ok data =>
        let pm := polymod (hrp_expand hrp ++ data)
        .ok (hrp, data, pm, pm == 1)

/-- Modelled from the spec: `ChecksumEngine.computeChecksum` (absent from the
source, which implements only decode) — `polymod(hrpExpand(hrp) ++ payload ++
[0,0,0,0,0,0]) XOR 1`, split into six 5-bit groups, most significant first. -/
def bech32_create_checksum (hrp payload : List Nat) : List Nat :=
  let pmx := polymod (hrp_expand hrp ++ payload ++ [0, 0, 0, 0, 0, 0]) ^^^ 1
  (List.range 6).map (fun i => (pmx >>> (5 * (5 - i))) &&& 31)

/-- Modelled from the spec: `AddressCodec.encode` (absent from the source) —
`hrp + "1" + symbolOf(payload ++ checksum)`.  Preconditions (non-empty
in-range prefix, 5-bit payload values) are carried as hypotheses of the
theorems rather than as a runtime check. -/
def bech32_encode (hrp payload : List Nat) : List Nat :=
  hrp ++ 49 :: (payload ++ bech32_create_checksum hrp payload).map (fun v => CHARSET.getD v 0)

/-! ### The generator-selection map and the xor-linear view of `polymodStep` -/

/-- The xor of the generator words selected by the low five bits of `t`;
`polymodStep` xors this into the shifted register. -/
def gsel (t : Nat) : Nat :=
  (if (t >>> 0) &&& 1 = 1 then 0x3b6a57b2 else 0) ^^^
  ((if (t >>> 1) &&& 1 = 1 then 0x26508e6d else 0) ^^^
  ((if (t >>> 2) &&& 1 = 1 then 0x1ea119fa else 0) ^^^
  ((if (t >>> 3) &&& 1 = 1 then 0x3d4233dd else 0) ^^^
  (if (t >>> 4) &&& 1 = 1 then 0x2a1462b3 else 0))))

theorem ite_xor_form (p : Prop) [Decidable p] (a g : Nat) :
    (if p then a ^^^ g else a) = a ^^^ (if p then g else 0) := by
  split <;> simp

theorem polymodStep_eq (chk v : Nat) :
    polymodStep chk v = (((chk &&& 0x1ffffff) <<< 5) ^^^ v) ^^^ gsel (chk >>> 25) := by
  rw [polymodStep, show List.range 5 = [0, 1, 2, 3, 4] from rfl]
  simp only [List.foldl]
  rw [show GENERATORS.getD 0 0 = 0x3b6a57b2 from rfl,
      show GENERATORS.getD 1 0 = 0x26508e6d from rfl,
      show GENERATORS.getD 2 0 = 0x1ea119fa from rfl,
      show GENERATORS.getD 3 0 = 0x3d4233dd from rfl,
      show GENERATORS.getD 4 0 = 0x2a1462b3 from rfl]
  rw [ite_xor_form, ite_xor_form, ite_xor_form, ite_xor_form, ite_xor_form, gsel]
  simp [Nat.xor_assoc]

theorem xor_left_comm (a b c : Nat) : a ^^^ (b ^^^ c) = b ^^^ (a ^^^ c) := by
  rw [← Nat.xor_assoc, Nat.xor_comm a b, Nat.xor_assoc]

theorem shiftRight_xor_distrib (a b i : Nat) : (a ^^^ b) >>> i = (a >>> i) ^^^ (b >>> i) :=
  Nat.eq_of_testBit_eq (by simp)

theorem shiftLeft_xor_distrib (a b i : Nat) : (a ^^^ b) <<< i = (a <<< i) ^^^ (b <<< i) :=
  Nat.eq_of_testBit_eq (by
    intro j
    simp only [Nat.testBit_shiftLeft, Nat.testBit_xor]
    cases Nat.decLe i j with
    | isTrue h => simp [h]
    | isFalse h => simp [h])

theorem gsel_xor (a b : Nat) : gsel (a ^^^ b) = gsel a ^^^ gsel b := by
  have key : ∀ (i : Nat) (g : Nat),
      (if ((a ^^^ b) >>> i) &&& 1 = 1 then g else 0) =
      (if (a >>> i) &&& 1 = 1 then g else 0) ^^^ (if (b >>> i) &&& 1 = 1 then g else 0) := by
    intro i g
    rw [shiftRight_xor_distrib, Nat.and_xor_distrib_right]
    have ha : (a >>> i) &&& 1 < 2 := Nat.lt_of_le_of_lt Nat.and_le_right (by norm_num)
    have hb : (b >>> i) &&& 1 < 2 := Nat.lt_of_le_of_lt Nat.and_le_right (by norm_num)
    interval_cases h1 : (a >>> i) &&& 1 <;> interval_cases h2 : (b >>> i) &&& 1 <;> simp
  rw [gsel, gsel, gsel, key, key, key, key, key]
  simp only [Nat.xor_assoc]
  simp [Nat.xor_assoc, Nat.xor_comm, xor_left_comm]

/-- `polymodStep` is linear over xor, in the state and in the input value. -/
theorem polymodStep_xor (a b u v : Nat) :
    polymodStep (a ^^^ b) (u ^^^ v) = polymodStep a u ^^^ polymodStep b v := by
  rw [polymodStep_eq, polymodStep_eq, polymodStep_eq, Nat.and_xor_distrib_right,
    shiftLeft_xor_distrib, shiftRight_xor_distrib, gsel_xor]
  simp only [Nat.xor_assoc]
  simp [Nat.xor_assoc, Nat.xor_comm, xor_left_comm]

theorem gsel_lt (t : Nat) : gsel t < 2 ^ 30 := by
  rw [gsel]
  repeat' apply Nat.xor_lt_two_pow
  all_goals split <;> norm_num

/-- The register stays below `2^30` when fed 5-bit values. -/
theorem polymodStep_lt {chk v : Nat} (_hc : chk < 2 ^ 30) (hv : v < 32) :
    polymodStep chk v < 2 ^ 30 := by
  rw [polymodStep_eq]
  apply Nat.xor_lt_two_pow _ (gsel_lt _)
  apply Nat.xor_lt_two_pow _ (by omega : v < 2 ^ 30)
  have h1 : chk &&& 0x1ffffff < 2 ^ 25 :=
    Nat.lt_of_le_of_lt Nat.and_le_right (by norm_num)
  rw [Nat.shiftLeft_eq]
  have h2 : (chk &&& 0x1ffffff) * 2 ^ 5 ≤ 0x1ffffff * 2 ^ 5 :=
    Nat.mul_le_mul_right _ (Nat.le_of_lt_succ (by exact_mod_cast h1))
  calc (chk &&& 0x1ffffff) * 2 ^ 5 ≤ 0x1ffffff * 2 ^ 5 := h2
    _ < 2 ^ 30 := by norm_num

theorem gsel_low5 : ∀ t < 32, gsel t &&& 31 = 0 → t = 0 := by decide

/-- The homogeneous step (input 0) has trivial kernel on 30-bit states:
this is single-error detection at the register level. -/
theorem polymodStep_zero_inj {d : Nat} (hd : d < 2 ^ 30) (h : polymodStep d 0 = 0) : d = 0 := by
  rw [polymodStep_eq, Nat.xor_zero] at h
  have heq : (d &&& 0x1ffffff) <<< 5 = gsel (d >>> 25) := by
    have := Nat.xor_eq_zero.mp h
    exact this
  have htop : d >>> 25 < 32 := by
    rw [Nat.shiftRight_eq_div_pow]
    omega
  have hlow : ((d &&& 0x1ffffff) <<< 5) &&& 31 = 0 := by
    rw [Nat.shiftLeft_eq, show (31 : Nat) = 2 ^ 5 - 1 from rfl,
      Nat.and_pow_two_sub_one_eq_mod]
    simp [Nat.mul_mod_left]
  have htz : d >>> 25 = 0 := gsel_low5 _ htop (by rw [← heq]; exact hlow)
  have hmz : d &&& 0x1ffffff = 0 := by
    have : (d &&& 0x1ffffff) <<< 5 = 0 := by
      rw [heq, htz]
      rfl
    rw [Nat.shiftLeft_eq] at this
    omega
  have hd25 : d < 2 ^ 25 := by
    rw [Nat.shiftRight_eq_div_pow] at htz
    omega
  rw [show (0x1ffffff : Nat) = 2 ^ 25 - 1 from rfl, Nat.and_pow_two_sub_one_eq_mod,
    Nat.mod_eq_of_lt hd25] at hmz
  exact hmz

theorem polymodStep_zero_zero : polymodStep 0 0 = 0 := by decide

/-- Feeding a value into the zero state just loads the value. -/
theorem polymodStep_zero_left (v : Nat) : polymodStep 0 v = v := by
  rw [polymodStep_eq]
  norm_num [gsel]

/-- A small state (no bits in the top five positions) is simply shifted. -/
theorem polymodStep_small {s : Nat} (hs : s < 2 ^ 25) (v : Nat) :
    polymodStep s v = (s <<< 5) ^^^ v := by
  rw [polymodStep_eq]
  have h1 : s &&& 0x1ffffff = s := by
    rw [show (0x1ffffff : Nat) = 2 ^ 25 - 1 from rfl, Nat.and_pow_two_sub_one_eq_mod,
      Nat.mod_eq_of_lt hs]
  have h2 : s >>> 25 = 0 := by
    rw [Nat.shiftRight_eq_div_pow]
    omega
  rw [h1, h2, show gsel 0 = 0 from rfl, Nat.xor_zero]

/-- Running the homogeneous recurrence from a nonzero 30-bit state never
reaches zero: errors injected into the register are never cancelled. -/
theorem foldl_replicate_zero_ne {d : Nat} (k : Nat) (hne : d ≠ 0) (hlt : d < 2 ^ 30) :
    (List.replicate k 0).foldl polymodStep d ≠ 0 ∧
    (List.replicate k 0).foldl polymodStep d < 2 ^ 30 := by
  induction k generalizing d with
  | zero => exact ⟨hne, hlt⟩
  | succ n ih =>
    rw [List.replicate_succ, List.foldl_cons]
    exact ih (fun h => hne (polymodStep_zero_inj hlt h)) (polymodStep_lt hlt (by norm_num))

theorem foldl_replicate_zero_zero (k : Nat) :
    (List.replicate k 0).foldl polymodStep 0 = 0 := by
  induction k with
  | zero => rfl
  | succ n ih => rw [List.replicate_succ, List.foldl_cons, polymodStep_zero_zero]; exact ih

/-- xor-linearity of the whole fold, for equal-length inputs. -/
theorem foldl_polymodStep_xor :
    ∀ (l1 l2 : List Nat) (s1 s2 : Nat), l1.length = l2.length →
    (l1.foldl polymodStep s1) ^^^ (l2.foldl polymodStep s2) =
      (List.zipWith (· ^^^ ·) l1 l2).foldl polymodStep (s1 ^^^ s2) := by
  intro l1
  induction l1 with
  | nil => intro l2 s1 s2 h; cases l2 with
    | nil => simp
    | cons b t => simp at h
  | cons a t1 ih =>
    intro l2 s1 s2 h
    cases l2 with
    | nil => simp at h
    | cons b t2 =>
      simp only [List.length_cons] at h
      simp only [List.zipWith_cons_cons, List.foldl_cons]
      rw [ih t2 (polymodStep s1 a) (polymodStep s2 b) (by omega), ← polymodStep_xor]

/-! ### Facts about the alphabet, decided by computation -/

theorem charset_char_facts :
    ∀ c ∈ CHARSET, 33 ≤ c ∧ c ≤ 126 ∧ ¬(65 ≤ c ∧ c ≤ 90) ∧ c ≠ 49 := by decide

theorem charset_getD_mem : ∀ v < 32, CHARSET.getD v 0 ∈ CHARSET := by decide

theorem charset_indexOf_getD : ∀ v < 32, CHARSET.indexOf (CHARSET.getD v 0) = v := by decide

theorem charset_indexOf_lt : ∀ c ∈ CHARSET, CHARSET.indexOf c < 32 := by decide

theorem charset_indexOf_inj :
    ∀ c ∈ CHARSET, ∀ c' ∈ CHARSET, CHARSET.indexOf c = CHARSET.indexOf c' → c = c' := by decide

/-! ### List helpers -/

theorem map_eq_self_iff {f : Nat → Nat} :
    ∀ {l : List Nat}, l.map f = l ↔ ∀ c ∈ l, f c = c := by
  intro l
  induction l with
  | nil => simp
  | cons a t ih =>
    simp only [List.map_cons, List.cons.injEq, List.mem_cons]
    constructor
    · rintro ⟨h1, h2⟩ c (rfl | hc)
      · exact h1
      · exact ih.mp h2 c hc
    · intro h
      exact ⟨h a (Or.inl rfl), ih.mpr (fun c hc => h c (Or.inr hc))⟩

theorem zipWith_xor_self : ∀ l : List Nat,
    List.zipWith (· ^^^ ·) l l = List.replicate l.length 0 := by
  intro l
  induction l with
  | nil => rfl
  | cons a t ih => simp [List.replicate_succ, ih]

theorem zipWith_xor_set (v : Nat) :
    ∀ (l : List Nat) (k : Nat), k < l.length →
    List.zipWith (· ^^^ ·) (l.set k v) l =
      List.replicate k 0 ++ (v ^^^ l.getD k 0) :: List.replicate (l.length - k - 1) 0 := by
  intro l
  induction l with
  | nil => intro k hk; simp at hk
  | cons a t ih =>
    intro k hk
    cases k with
    | zero => simp [zipWith_xor_self]
    | succ n =>
      simp only [List.set_cons_succ, List.zipWith_cons_cons, Nat.xor_self,
        List.getD_cons_succ, List.length_cons, List.replicate_succ, List.cons_append]
      rw [ih n (by simpa using hk),
        show t.length + 1 - (n + 1) - 1 = t.length - n - 1 by omega]

/-! ### rfind: characterisation as the last occurrence -/

theorem rfind_eq_neg_one {c : Nat} : ∀ {l : List Nat}, c ∉ l → rfind l c = -1 := by
  intro l
  induction l with
  | nil => intro _; rfl
  | cons a t ih =>
    intro h
    simp only [List.mem_cons, not_or] at h
    show (if 0 ≤ rfind t c then rfind t c + 1 else if a = c then 0 else -1) = -1
    rw [ih h.2, if_neg (by norm_num), if_neg (fun hc => h.1 hc.symm)]

theorem rfind_mem {c : Nat} : ∀ {l : List Nat}, c ∈ l →
    0 ≤ rfind l c ∧ (rfind l c).toNat < l.length ∧
    l.getD (rfind l c).toNat 0 = c ∧
    ∀ j, j < l.length → l.getD j 0 = c → j ≤ (rfind l c).toNat := by
  intro l
  induction l with
  | nil => intro h; simp at h
  | cons a t ih =>
    intro h
    rw [rfind]
    by_cases hm : c ∈ t
    · obtain ⟨h0, hlen, hget, hlast⟩ := ih hm
      rw [if_pos (by omega)]
      refine ⟨by omega, ?_, ?_, ?_⟩
      · simp only [List.length_cons]
        omega
      · rw [show (rfind t c + 1).toNat = (rfind t c).toNat + 1 by omega, List.getD_cons_succ]
        exact hget
      · intro j hj hjc
        cases j with
        | zero => omega
        | succ n =>
          rw [show (rfind t c + 1).toNat = (rfind t c).toNat + 1 by omega]
          have := hlast n (by simpa using hj) (by simpa using hjc)
          omega
    · have hac : a = c := by
        rcases List.mem_cons.mp h with h1 | h2
        · exact h1.symm
        · exact absurd h2 hm
      rw [rfind_eq_neg_one hm, if_neg (by norm_num), if_pos hac]
      refine ⟨le_refl 0, by simp, by simpa using hac, ?_⟩
      intro j hj hjc
      cases j with
      | zero => simp
      | succ n =>
        exfalso
        apply hm
        rw [List.getD_cons_succ] at hjc
        have hn : n < t.length := by simpa using hj
        rw [← hjc]
        have hmem := List.get_mem t n hn
        rw [List.getD_eq_getElem?_getD, List.getElem?_eq_getElem hn]
        exact hmem

theorem rfind_append_last {c : Nat} (l1 l2 : List Nat) (h : c ∉ l2) :
    rfind (l1 ++ c :: l2) c = (l1.length : Int) := by
  induction l1 with
  | nil =>
    simp only [List.nil_append, rfind, rfind_eq_neg_one h]
    norm_num
  | cons a t ih =>
    rw [List.cons_append, rfind, ih]
    rw [if_pos (by positivity)]
    simp

/-! ### mapCharset -/

theorem mapCharset_ok {l : List Nat} (h : ∀ c ∈ l, c ∈ CHARSET) :
    mapCharset l = .ok (l.map (fun c => CHARSET.indexOf c)) := by
  induction l with
  | nil => rfl
  | cons a t ih =>
    rw [mapCharset, if_pos (h a (List.mem_cons_self a t)),
      ih (fun c hc => h c (List.mem_cons_of_mem a hc))]
    simp

theorem mapCharset_ok_inv : ∀ {l d : List Nat}, mapCharset l = .ok d →
    (∀ c ∈ l, c ∈ CHARSET) ∧ d = l.map (fun c => CHARSET.indexOf c) := by
  intro l
  induction l with
  | nil =>
    intro d h
    rw [mapCharset] at h
    cases h
    exact ⟨by simp, rfl⟩
  | cons a t ih =>
    intro d h
    rw [mapCharset] at h
    split at h
    · split at h
      · cases h
        next hmem heq =>
          obtain ⟨h1, h2⟩ := ih heq
          refine ⟨?_, by simp [h2]⟩
          intro c hc
          rcases List.mem_cons.mp hc with rfl | hct
          · assumption
          · exact h1 c hct
      · cases h
    · cases h

theorem mapCharset_mapped {vs : List Nat} (h : ∀ v ∈ vs, v < 32) :
    mapCharset (vs.map (fun v => CHARSET.getD v 0)) = .ok vs := by
  induction vs with
  | nil => rfl
  | cons a t ih =>
    have ha := h a (List.mem_cons_self a t)
    rw [List.map_cons, mapCharset, if_pos (charset_getD_mem a ha),
      ih (fun v hv => h v (List.mem_cons_of_mem a hv)), charset_indexOf_getD a ha]

/-! ### Symbolic evaluation of `bech32_decode` on well-formed strings -/

theorem lowerChar_eq_self {c : Nat} (h : ¬(65 ≤ c ∧ c ≤ 90)) : lowerChar c = c := if_neg h

/-- Decoding a lower-case string `hrp ++ "1" ++ data` with an alphabet-only,
long-enough data part: every guard passes and the full mapped data is
returned together with the raw polymod and the validity bit. -/
theorem decode_append (hrp dat : List Nat)
    (hr : ∀ c ∈ hrp, 33 ≤ c ∧ c ≤ 126) (hlo : ∀ c ∈ hrp, ¬(65 ≤ c ∧ c ≤ 90))
    (hne : hrp ≠ []) (hd : ∀ c ∈ dat, c ∈ CHARSET) (hlen : 6 ≤ dat.length) :
    bech32_decode (hrp ++ 49 :: dat) =
      .ok (hrp, dat.map (fun c => CHARSET.indexOf c),
           polymod (hrp_expand hrp ++ dat.map (fun c => CHARSET.indexOf c)),
           polymod (hrp_expand hrp ++ dat.map (fun c => CHARSET.indexOf c)) == 1) := by
  have h49 : (49 : Nat) ∉ dat := fun h => (charset_char_facts 49 (hd _ h)).2.2.2 rfl
  have hrange : (hrp ++ 49 :: dat).any (fun x => x < 33 ∨ 126 < x) = false := by
    simp only [List.any_eq_false, decide_eq_true_eq]
    intro x hx
    rcases List.mem_append.mp hx with h1 | h2
    · have := hr x h1; omega
    · rcases List.mem_cons.mp h2 with rfl | h3
      · omega
      · have := charset_char_facts x (hd x h3); omega
  have hlow : asciiLower (hrp ++ 49 :: dat) = hrp ++ 49 :: dat := by
    rw [asciiLower]
    apply map_eq_self_iff.mpr
    intro c hc
    apply lowerChar_eq_self
    rcases List.mem_append.mp hc with h1 | h2
    · exact hlo c h1
    · rcases List.mem_cons.mp h2 with rfl | h3
      · omega
      · have := charset_char_facts c (hd c h3); omega
  have hpos : rfind (hrp ++ 49 :: dat) 49 = (hrp.length : Int) := rfind_append_last _ _ h49
  have hlen1 : 1 ≤ hrp.length := List.length_pos.mpr hne
  rw [bech32_decode, if_neg (by rw [hrange]; exact Bool.false_ne_true),
    if_neg (fun hcon => hcon.1 hlow)]
  simp only [hlow, hpos]
  rw [if_neg (by
    simp only [List.length_append, List.length_cons, not_or, not_lt]
    constructor
    · exact_mod_cast hlen1
    · push_cast
      omega)]
  rw [show ((hrp.length : Int)).toNat = hrp.length from Int.toNat_natCast _]
  rw [List.take_left, show hrp ++ 49 :: dat = (hrp ++ [49]) ++ dat by simp,
    List.drop_left' (by simp), mapCharset_ok hd]

/-! ### The checksum construction verifies -/

theorem foldl_polymodStep_lt :
    ∀ (l : List Nat) (s : Nat), s < 2 ^ 30 → (∀ v ∈ l, v < 32) →
    l.foldl polymodStep s < 2 ^ 30 := by
  intro l
  induction l with
  | nil => intro s hs _; exact hs
  | cons a t ih =>
    intro s hs h
    rw [List.foldl_cons]
    exact ih _ (polymodStep_lt hs (h a (List.mem_cons_self a t)))
      (fun v hv => h v (List.mem_cons_of_mem a hv))

/-- For 5-bit inputs the final checksum register is a 30-bit value. -/
theorem polymod_lt {values : List Nat} (h : ∀ v ∈ values, v < 32) :
    polymod values < 2 ^ 30 :=
  foldl_polymodStep_lt values 1 (by norm_num) h

theorem shiftLeft_xor_eq_add {a b : Nat} (hb : b < 32) : (a <<< 5) ^^^ b = 2 ^ 5 * a + b := by
  apply Nat.eq_of_testBit_eq
  intro j
  rw [Nat.testBit_xor, Nat.testBit_shiftLeft,
    Nat.testBit_mul_pow_two_add a (by norm_num at hb ⊢; omega) j]
  by_cases hj : j < 5
  · simp [hj, Nat.not_le.mpr hj]
  · have hb2 : b < 2 ^ j := by
      have : (32 : Nat) ≤ 2 ^ j := by
        calc (32 : Nat) = 2 ^ 5 := rfl
        _ ≤ 2 ^ j := Nat.pow_le_pow_right (by norm_num) (by omega)
      omega
    simp [hj, Nat.le_of_not_lt (by omega : ¬j < 5), Nat.testBit_lt_two_pow hb2]

/-- Loading the six 5-bit groups of a 30-bit word into the zero register,
most significant first, reconstructs the word. -/
theorem foldl_spread (T : Nat) (hT : T < 2 ^ 30) :
    [T >>> 25 &&& 31, T >>> 20 &&& 31, T >>> 15 &&& 31, T >>> 10 &&& 31, T >>> 5 &&& 31,
     T &&& 31].foldl polymodStep 0 = T := by
  have hm : ∀ x : Nat, x &&& 31 < 32 := fun x => Nat.lt_of_le_of_lt Nat.and_le_right (by norm_num)
  have hsm : ∀ a b : Nat, a < 2 ^ 20 → b < 32 → (a <<< 5) ^^^ b < 2 ^ 25 := by
    intro a b ha hb
    rw [shiftLeft_xor_eq_add hb]
    have : 2 ^ 5 * a ≤ 2 ^ 5 * (2 ^ 20 - 1) := Nat.mul_le_mul_left _ (by omega)
    norm_num at this ⊢
    omega
  simp only [List.foldl_cons, List.foldl_nil]
  rw [polymodStep_zero_left]
  rw [polymodStep_small (Nat.lt_of_lt_of_le (hm _) (by norm_num))]
  rw [polymodStep_small (hsm _ _ (Nat.lt_of_lt_of_le (hm _) (by norm_num)) (hm _))]
  rw [polymodStep_small (hsm _ _ (by
    rw [shiftLeft_xor_eq_add (hm _)]
    have := hm (T >>> 25); have := hm (T >>> 20)
    norm_num
    omega) (hm _))]
  rw [polymodStep_small (hsm _ _ (by
    rw [shiftLeft_xor_eq_add (hm _), shiftLeft_xor_eq_add (hm _)]
    have := hm (T >>> 25); have := hm (T >>> 20); have := hm (T >>> 15)
    norm_num
    omega) (hm _))]
  rw [polymodStep_small (hsm _ _ (by
    rw [shiftLeft_xor_eq_add (hm _), shiftLeft_xor_eq_add (hm _), shiftLeft_xor_eq_add (hm _)]
    have := hm (T >>> 25); have := hm (T >>> 20); have := hm (T >>> 15); have := hm (T >>> 10)
    norm_num
    omega) (hm _))]
  rw [shiftLeft_xor_eq_add (hm _), shiftLeft_xor_eq_add (hm _), shiftLeft_xor_eq_add (hm _),
    shiftLeft_xor_eq_add (hm _), shiftLeft_xor_eq_add (hm _)]
  rw [show (31 : Nat) = 2 ^ 5 - 1 from rfl]
  simp only [Nat.and_pow_two_sub_one_eq_mod, Nat.shiftRight_eq_div_pow]
  norm_num
  omega

theorem zipWith_xor_replicate_zero :
    ∀ l : List Nat, List.zipWith (· ^^^ ·) l (List.replicate l.length 0) = l := by
  intro l
  induction l with
  | nil => rfl
  | cons a t ih => simp only [List.length_cons, List.replicate_succ,
      List.zipWith_cons_cons, Nat.xor_zero, ih]

theorem create_checksum_expand (hrp payload : List Nat) :
    bech32_create_checksum hrp payload =
      [(polymod (hrp_expand hrp ++ payload ++ [0, 0, 0, 0, 0, 0]) ^^^ 1) >>> 25 &&& 31,
       (polymod (hrp_expand hrp ++ payload ++ [0, 0, 0, 0, 0, 0]) ^^^ 1) >>> 20 &&& 31,
       (polymod (hrp_expand hrp ++ payload ++ [0, 0, 0, 0, 0, 0]) ^^^ 1) >>> 15 &&& 31,
       (polymod (hrp_expand hrp ++ payload ++ [0, 0, 0, 0, 0, 0]) ^^^ 1) >>> 10 &&& 31,
       (polymod (hrp_expand hrp ++ payload ++ [0, 0, 0, 0, 0, 0]) ^^^ 1) >>> 5 &&& 31,
       (polymod (hrp_expand hrp ++ payload ++ [0, 0, 0, 0, 0, 0]) ^^^ 1) &&& 31] := by
  rw [bech32_create_checksum]
  norm_num [List.range, List.range.loop]

theorem hrp_expand_lt {hrp : List Nat} (h : ∀ c ∈ hrp, c ≤ 126) :
    ∀ v ∈ hrp_expand hrp, v < 32 := by
  intro v hv
  rw [hrp_expand] at hv
  rcases List.mem_append.mp hv with h1 | h2
  · rcases List.mem_append.mp h1 with h3 | h4
    · obtain ⟨c, hc, rfl⟩ := List.mem_map.mp h3
      have := h c hc
      rw [Nat.shiftRight_eq_div_pow]
      omega
    · simp at h4
      omega
  · obtain ⟨c, hc, rfl⟩ := List.mem_map.mp h2
    exact Nat.lt_of_le_of_lt Nat.and_le_right (by norm_num)

/-- The checksum appended by encode makes the polymod of the whole value
sequence equal to 1: the algebraic heart of the round-trip. -/
theorem polymod_with_checksum (hrp payload : List Nat)
    (hh : ∀ c ∈ hrp, c ≤ 126) (hp : ∀ v ∈ payload, v < 32) :
    polymod (hrp_expand hrp ++ (payload ++ bech32_create_checksum hrp payload)) = 1 := by
  have hP0lt : polymod (hrp_expand hrp ++ payload ++ [0, 0, 0, 0, 0, 0]) < 2 ^ 30 := by
    apply polymod_lt
    intro v hv
    rcases List.mem_append.mp hv with h1 | h2
    · rcases List.mem_append.mp h1 with h3 | h4
      · exact hrp_expand_lt hh v h3
      · exact hp v h4
    · simp at h2
      omega
  set P0 := polymod (hrp_expand hrp ++ payload ++ [0, 0, 0, 0, 0, 0]) with hP0
  set s := List.foldl polymodStep 1 (hrp_expand hrp ++ payload) with hs
  have hTlt : P0 ^^^ 1 < 2 ^ 30 := Nat.xor_lt_two_pow hP0lt (by norm_num)
  have hsplit : polymod (hrp_expand hrp ++ (payload ++ bech32_create_checksum hrp payload)) =
      List.foldl polymodStep s (bech32_create_checksum hrp payload) := by
    rw [polymod, ← List.append_assoc, List.foldl_append, hs]
  have hzeros : P0 = List.foldl polymodStep s (List.replicate 6 0) := by
    rw [hP0, polymod, List.foldl_append, hs]
    rfl
  have hlen : (bech32_create_checksum hrp payload).length = 6 := by
    rw [create_checksum_expand]
    rfl
  have hdiff : List.foldl polymodStep s (bech32_create_checksum hrp payload) ^^^ P0 =
      P0 ^^^ 1 := by
    conv_lhs => rw [hzeros]
    rw [foldl_polymodStep_xor _ _ _ _ (by rw [hlen]; rfl)]
    rw [Nat.xor_self, show List.replicate 6 (0 : Nat) =
      List.replicate (bech32_create_checksum hrp payload).length 0 by rw [hlen]]
    rw [zipWith_xor_replicate_zero, create_checksum_expand, ← hP0]
    exact foldl_spread (P0 ^^^ 1) hTlt
  rw [hsplit]
  calc List.foldl polymodStep s (bech32_create_checksum hrp payload)
      = (List.foldl polymodStep s (bech32_create_checksum hrp payload) ^^^ P0) ^^^ P0 := by
        rw [Nat.xor_cancel_right]
    _ = (P0 ^^^ 1) ^^^ P0 := by rw [hdiff]
    _ = 1 := by rw [Nat.xor_comm P0 1, Nat.xor_assoc, Nat.xor_self, Nat.xor_zero]

theorem create_checksum_lt (hrp payload : List Nat) :
    ∀ v ∈ bech32_create_checksum hrp payload, v < 32 := by
  rw [create_checksum_expand]
  intro v hv
  have hand : ∀ x : Nat, x &&& 31 < 32 :=
    fun x => Nat.lt_of_le_of_lt Nat.and_le_right (by norm_num)
  simp only [List.mem_cons, List.not_mem_nil, or_false] at hv
  rcases hv with rfl | rfl | rfl | rfl | rfl | rfl <;> exact hand _

theorem create_checksum_length (hrp payload : List Nat) :
    (bech32_create_checksum hrp payload).length = 6 := by
  rw [create_checksum_expand]
  rfl

/-- Decoding an encoded string: the amended round-trip.  The prefix must be
free of upper-case letters (otherwise the rendered string is mixed-case),
and decode returns the payload together with the six checksum values. -/
theorem decode_encode (hrp payload : List Nat)
    (hne : hrp ≠ []) (hr : ∀ c ∈ hrp, 33 ≤ c ∧ c ≤ 126)
    (hlo : ∀ c ∈ hrp, ¬(65 ≤ c ∧ c ≤ 90)) (hp : ∀ v ∈ payload, v < 32) :
    bech32_decode (bech32_encode hrp payload) =
      .ok (hrp, payload ++ bech32_create_checksum hrp payload, 1, true) := by
  set cs := bech32_create_checksum hrp payload with hcs
  have hpc : ∀ v ∈ payload ++ cs, v < 32 := by
    intro v hv
    rcases List.mem_append.mp hv with h1 | h2
    · exact hp v h1
    · exact create_checksum_lt hrp payload v h2
  have hd : ∀ c ∈ (payload ++ cs).map (fun v => CHARSET.getD v 0), c ∈ CHARSET := by
    intro c hc
    obtain ⟨w, hw, rfl⟩ := List.mem_map.mp hc
    exact charset_getD_mem w (hpc w hw)
  have hlen : 6 ≤ ((payload ++ cs).map (fun v => CHARSET.getD v 0)).length := by
    rw [List.length_map, List.length_append, hcs, create_checksum_length]
    omega
  rw [bech32_encode, decode_append hrp _ hr hlo hne hd hlen]
  have hback : ((payload ++ cs).map (fun v => CHARSET.getD v 0)).map
      (fun c => CHARSET.indexOf c) = payload ++ cs := by
    have h1 := mapCharset_ok hd
    rw [mapCharset_mapped hpc] at h1
    exact (Except.ok.inj h1).symm
  rw [hback, polymod_with_checksum hrp payload (fun c hc => (hr c hc).2) hp]
  rfl

/-- Everything `bech32_decode` guarantees about a successful result. -/
theorem bech32_decode_ok_inv {bech h d : List Nat} {pm : Nat} {v : Bool}
    (hdec : bech32_decode bech = .ok (h, d, pm, v)) :
    bech.any (fun x => x < 33 ∨ 126 < x) = false ∧
    (asciiLower bech = bech ∨ asciiUpper bech = bech) ∧
    1 ≤ rfind (asciiLower bech) 49 ∧
    rfind (asciiLower bech) 49 + 7 ≤ ((asciiLower bech).length : Int) ∧
    h = (asciiLower bech).take (rfind (asciiLower bech) 49).toNat ∧
    mapCharset ((asciiLower bech).drop ((rfind (asciiLower bech) 49).toNat + 1)) = .ok d ∧
    pm = polymod (hrp_expand h ++ d) ∧
    v = (pm == 1) := by
  simp only [bech32_decode] at hdec
  split at hdec
  · exact absurd hdec (by simp)
  next hc1 =>
    split at hdec
    · exact absurd hdec (by simp)
    next hc2 =>
      split at hdec
      · exact absurd hdec (by simp)
      next hc3 =>
        split at hdec
        next e heq => exact absurd hdec (by simp)
        next data heq =>
          simp only [Except.ok.injEq, Prod.mk.injEq] at hdec
          obtain ⟨hh, hd2, hpm, hv⟩ := hdec
          push_neg at hc3
          refine ⟨by simpa using hc1, by tauto, by omega, by omega, hh.symm, ?_, ?_, ?_⟩
          · rw [heq, hd2]
          · rw [← hpm, ← hh, ← hd2]
          · rw [← hpm]
            exact hv.symm

theorem getD_eq_getElem_of_lt {l : List Nat} {n : Nat} (h : n < l.length) :
    l.getD n 0 = l[n] := by
  rw [List.getD_eq_getElem?_getD, List.getElem?_eq_getElem h]
  rfl

theorem getD_append_right_nat {l1 l2 : List Nat} {n : Nat} (h : l1.length ≤ n) :
    (l1 ++ l2).getD n 0 = l2.getD (n - l1.length) 0 := by
  rw [List.getD_eq_getElem?_getD, List.getD_eq_getElem?_getD,
    List.getElem?_append_right h]

/-- Substituting one data-part symbol of a lower-case, checksum-valid string
by a different alphabet symbol still decodes, but with `valid = false`. -/
theorem decode_set_invalid {bech h d : List Nat} {pm : Nat}
    (hl : asciiLower bech = bech)
    (hdec : bech32_decode bech = .ok (h, d, pm, true))
    (j : Nat) (hj1 : (rfind bech 49).toNat < j) (hj2 : j < bech.length)
    (c : Nat) (hc : c ∈ CHARSET) (hcne : c ≠ bech.getD j 0) :
    ∃ d' pm', pm' ≠ 1 ∧ bech32_decode (bech.set j c) = .ok (h, d', pm', false) := by
  obtain ⟨hg1, _hg2, hg3, hg4, hh, hmap, hpm, hvet⟩ := bech32_decode_ok_inv hdec
  rw [hl] at hg3 hg4 hh hmap
  have hpos0 : 0 ≤ rfind bech 49 := by omega
  set pos := (rfind bech 49).toNat with hposdef
  have hp1 : 1 ≤ pos := by omega
  have hplen : (pos : Int) + 7 ≤ (bech.length : Int) := by
    rw [hposdef, Int.toNat_of_nonneg hpos0]
    exact hg4
  have hplen' : pos + 7 ≤ bech.length := by exact_mod_cast hplen
  have hposlt : pos < bech.length := by omega
  have hget49 : bech.getD pos 0 = 49 := by
    have hmem : (49 : Nat) ∈ bech := by
      by_contra hnm
      rw [rfind_eq_neg_one hnm] at hpos0
      omega
    exact (rfind_mem hmem).2.2.1
  set L := bech.take pos with hL
  set R := bech.drop (pos + 1) with hR
  have hLlen : L.length = pos := by
    rw [hL, List.length_take]
    omega
  have hRlen : R.length = bech.length - pos - 1 := by
    rw [hR, List.length_drop]
    omega
  have hsplit : bech = L ++ 49 :: R := by
    conv_lhs => rw [← List.take_append_drop pos bech]
    rw [hL, hR, List.drop_eq_getElem_cons hposlt, ← getD_eq_getElem_of_lt hposlt, hget49]
  obtain ⟨hRin, hdmap⟩ := mapCharset_ok_inv hmap
  have hpm1 : pm = 1 := by
    have := hvet.symm
    rw [beq_iff_eq] at this
    exact this
  have hrange : ∀ x ∈ bech, 33 ≤ x ∧ x ≤ 126 := by
    intro x hx
    have := List.any_eq_false.mp hg1 x hx
    simp only [decide_eq_true_eq, not_or, not_lt] at this
    omega
  have hlowall : ∀ x ∈ bech, ¬(65 ≤ x ∧ x ≤ 90) := by
    intro x hx hcon
    have := map_eq_self_iff.mp hl x hx
    rw [lowerChar, if_pos hcon] at this
    omega
  set k := j - pos - 1 with hk
  have hkR : k < R.length := by
    rw [hRlen]
    omega
  have hseteq : bech.set j c = L ++ 49 :: R.set k c := by
    conv_lhs => rw [hsplit]
    rw [List.set_append_right _ _ (by rw [hLlen]; omega),
      hLlen, show j - pos = k + 1 by omega, List.set_cons_succ]
  have hgetJ : bech.getD j 0 = R.getD k 0 := by
    conv_lhs => rw [hsplit]
    rw [getD_append_right_nat (by rw [hLlen]; omega), hLlen,
      show j - pos = k + 1 by omega, List.getD_cons_succ]
  have hdec1 : bech32_decode bech =
      .ok (L, R.map (fun x => CHARSET.indexOf x),
        polymod (hrp_expand L ++ R.map (fun x => CHARSET.indexOf x)),
        polymod (hrp_expand L ++ R.map (fun x => CHARSET.indexOf x)) == 1) := by
    conv_lhs => rw [hsplit]
    exact decode_append L R
      (fun x hx => hrange x (hsplit ▸ List.mem_append_left _ hx))
      (fun x hx => hlowall x (hsplit ▸ List.mem_append_left _ hx))
      (fun hLnil => by rw [hLnil] at hLlen; simp at hLlen; omega)
      hRin (by rw [hRlen]; omega)
  have hdec2 : bech32_decode (bech.set j c) =
      .ok (L, (R.set k c).map (fun x => CHARSET.indexOf x),
        polymod (hrp_expand L ++ (R.set k c).map (fun x => CHARSET.indexOf x)),
        polymod (hrp_expand L ++ (R.set k c).map (fun x => CHARSET.indexOf x)) == 1) := by
    rw [hseteq]
    apply decode_append L (R.set k c)
      (fun x hx => hrange x (hsplit ▸ List.mem_append_left _ hx))
      (fun x hx => hlowall x (hsplit ▸ List.mem_append_left _ hx))
      (fun hLnil => by rw [hLnil] at hLlen; simp at hLlen; omega)
      ?_ (by rw [List.length_set, hRlen]; omega)
    intro x hx
    rcases List.mem_or_eq_of_mem_set hx with hxR | rfl
    · exact hRin x hxR
    · exact hc
  have hhL : h = L := hh
  have hdR : d = R.map (fun x => CHARSET.indexOf x) := hdmap
  have hRk_mem : R.getD k 0 ∈ CHARSET := by
    apply hRin
    rw [getD_eq_getElem_of_lt hkR]
    exact List.getElem_mem _
  have hidx_ne : CHARSET.indexOf c ≠ CHARSET.indexOf (R.getD k 0) := by
    intro hcon
    exact (hcne (hgetJ ▸ charset_indexOf_inj c hc (R.getD k 0) hRk_mem hcon)).elim
  set d' := (R.set k c).map (fun x => CHARSET.indexOf x) with hd'
  have hd'set : d' = (R.map (fun x => CHARSET.indexOf x)).set k (CHARSET.indexOf c) := by
    rw [hd', List.map_set]
  have hkd : k < (R.map (fun x => CHARSET.indexOf x)).length := by
    rw [List.length_map]
    exact hkR
  have hdk : (R.map (fun x => CHARSET.indexOf x)).getD k 0 = CHARSET.indexOf (R.getD k 0) := by
    rw [getD_eq_getElem_of_lt hkd, getD_eq_getElem_of_lt hkR, List.getElem_map]
  have hδne : CHARSET.indexOf c ^^^ (R.map (fun x => CHARSET.indexOf x)).getD k 0 ≠ 0 := by
    rw [hdk]
    exact Nat.xor_ne_zero.mpr hidx_ne
  have hδlt : CHARSET.indexOf c ^^^ (R.map (fun x => CHARSET.indexOf x)).getD k 0 < 2 ^ 30 := by
    apply Nat.xor_lt_two_pow
    · have := charset_indexOf_lt c hc
      omega
    · rw [hdk]
      have := charset_indexOf_lt _ hRk_mem
      omega
  have hdiff : polymod (hrp_expand L ++ d') ^^^
      polymod (hrp_expand L ++ R.map (fun x => CHARSET.indexOf x)) ≠ 0 := by
    rw [polymod, polymod,
      foldl_polymodStep_xor _ _ _ _ (by
        rw [List.length_append, List.length_append, hd'set, List.length_set]),
      Nat.xor_self, hd'set,
      List.zipWith_append _ _ _ _ _ rfl, zipWith_xor_self,
      zipWith_xor_set _ _ _ hkd,
      List.foldl_append, List.foldl_append, foldl_replicate_zero_zero,
      foldl_replicate_zero_zero, List.foldl_cons, polymodStep_zero_left]
    exact (foldl_replicate_zero_ne _ hδne hδlt).1
  have hpm_eq : polymod (hrp_expand L ++ R.map (fun x => CHARSET.indexOf x)) = 1 := by
    rw [show polymod (hrp_expand L ++ R.map fun x => CHARSET.indexOf x) = pm from by
      rw [hpm, hhL, hdR], hpm1]
  have hne1 : polymod (hrp_expand L ++ d') ≠ 1 := fun hcon =>
    hdiff (by rw [hcon, hpm_eq]; exact Nat.xor_self 1)
  refine ⟨d', polymod (hrp_expand L ++ d'), hne1, ?_⟩
  rw [hdec2, hhL,
    show (polymod (hrp_expand L ++ d') == 1) = false from beq_eq_false_iff_ne.mpr hne1]

/-! ### Forward evaluation when the structural checks pass, and the
error cases -/

/-- When all four structural checks pass, decode returns normally and the
validity flag is exactly `polymod == 1`: the checksum is reported, never
raised. -/
theorem bech32_decode_ok_of_checks {bech : List Nat}
    (h1 : bech.any (fun x => x < 33 ∨ 126 < x) = false)
    (h2 : asciiLower bech = bech ∨ asciiUpper bech = bech)
    (h3 : ¬(rfind (asciiLower bech) 49 < 1 ∨
        rfind (asciiLower bech) 49 + 7 > (((asciiLower bech).length : Int))))
    (h4 : ∀ c ∈ (asciiLower bech).drop ((rfind (asciiLower bech) 49).toNat + 1), c ∈ CHARSET) :
    bech32_decode bech = .ok
      ((asciiLower bech).take (rfind (asciiLower bech) 49).toNat,
       ((asciiLower bech).drop ((rfind (asciiLower bech) 49).toNat + 1)).map
         (fun c => CHARSET.indexOf c),
       polymod (hrp_expand ((asciiLower bech).take (rfind (asciiLower bech) 49).toNat) ++
         ((asciiLower bech).drop ((rfind (asciiLower bech) 49).toNat + 1)).map
           (fun c => CHARSET.indexOf c)),
       polymod (hrp_expand ((asciiLower bech).take (rfind (asciiLower bech) 49).toNat) ++
         ((asciiLower bech).drop ((rfind (asciiLower bech) 49).toNat + 1)).map
           (fun c => CHARSET.indexOf c)) == 1) := by
  simp only [bech32_decode]
  rw [if_neg (by rw [h1]; exact Bool.false_ne_true),
    if_neg (by tauto), if_neg h3, mapCharset_ok h4]

theorem mapCharset_error_inv :
    ∀ {l : List Nat} {e : DecodeError}, mapCharset l = .error e →
    ∃ ch, e = .invalidCharacter ch := by
  intro l
  induction l with
  | nil => intro e h; cases h
  | cons a t ih =>
    intro e h
    rw [mapCharset] at h
    split at h
    · split at h
      · cases h
      · cases h
        next heq => exact ih heq
    · cases h
      exact ⟨a, rfl⟩

/-- After the range and case checks pass, the separator error occurs exactly
when the last `'1'` is missing, at position 0, or followed by fewer than six
characters. -/
theorem decode_sep_error_iff {bech : List Nat}
    (h1 : bech.any (fun x => x < 33 ∨ 126 < x) = false)
    (h2 : asciiLower bech = bech ∨ asciiUpper bech = bech) :
    bech32_decode bech = .error .invalidSeparatorPosition ↔
      (rfind (asciiLower bech) 49 < 1 ∨
       rfind (asciiLower bech) 49 + 7 > (((asciiLower bech).length : Int))) := by
  simp only [bech32_decode]
  rw [if_neg (by rw [h1]; exact Bool.false_ne_true), if_neg (by tauto)]
  by_cases hsep : rfind (asciiLower bech) 49 < 1 ∨
      rfind (asciiLower bech) 49 + 7 > (((asciiLower bech).length : Int))
  · rw [if_pos hsep]
    simp [hsep]
  · rw [if_neg hsep]
    simp only [hsep, iff_false]
    cases hm : mapCharset ((asciiLower bech).drop ((rfind (asciiLower bech) 49).toNat + 1)) with
    | error e =>
      obtain ⟨ch, rfl⟩ := mapCharset_error_inv hm
      simp
    | ok data =>
      simp

/-- A string containing both an upper-case and a lower-case letter fails the
mixed-case check, before any alphabet or checksum processing. -/
theorem decode_mixed_case {bech : List Nat}
    (h1 : ∀ c ∈ bech, 33 ≤ c ∧ c ≤ 126)
    (hu : ∃ c ∈ bech, 65 ≤ c ∧ c ≤ 90)
    (hlw : ∃ c ∈ bech, 97 ≤ c ∧ c ≤ 122) :
    bech32_decode bech = .error .mixedCase := by
  rw [bech32_decode]
  rw [if_neg (by
    rw [List.any_eq_false.mpr]
    · exact Bool.false_ne_true
    · intro x hx
      have := h1 x hx
      simp only [decide_eq_true_eq, not_or, not_lt]
      omega)]
  rw [if_pos]
  constructor
  · obtain ⟨c, hc, hcu⟩ := hu
    intro heq
    have := map_eq_self_iff.mp heq c hc
    rw [lowerChar, if_pos hcu] at this
    omega
  · obtain ⟨c, hc, hcl⟩ := hlw
    intro heq
    have := map_eq_self_iff.mp heq c hc
    rw [upperChar, if_pos hcl] at this
    omega

/-! ### Case insensitivity -/

theorem lowerChar_lowerChar (c : Nat) : lowerChar (lowerChar c) = lowerChar c := by
  simp only [lowerChar]
  split_ifs <;> omega

theorem upperChar_upperChar (c : Nat) : upperChar (upperChar c) = upperChar c := by
  simp only [upperChar]
  split_ifs <;> omega

theorem lowerChar_upperChar (c : Nat) : lowerChar (upperChar c) = lowerChar c := by
  simp only [lowerChar, upperChar]
  split_ifs <;> omega

theorem any_congr {l : List Nat} {p q : Nat → Bool} (h : ∀ x ∈ l, p x = q x) :
    l.any p = l.any q := by
  induction l with
  | nil => rfl
  | cons a t ih =>
    simp only [List.any_cons]
    rw [h a (List.mem_cons_self a t), ih (fun x hx => h x (List.mem_cons_of_mem a hx))]

theorem any_range_lower (bech : List Nat) :
    (asciiLower bech).any (fun x => x < 33 ∨ 126 < x) =
      bech.any (fun x => x < 33 ∨ 126 < x) := by
  rw [asciiLower, List.any_map]
  apply any_congr
  intro x _
  apply decide_eq_decide.mpr
  simp only [Function.comp, lowerChar]
  split_ifs <;> omega

theorem any_range_upper (bech : List Nat) :
    (asciiUpper bech).any (fun x => x < 33 ∨ 126 < x) =
      bech.any (fun x => x < 33 ∨ 126 < x) := by
  rw [asciiUpper, List.any_map]
  apply any_congr
  intro x _
  apply decide_eq_decide.mpr
  simp only [Function.comp, upperChar]
  split_ifs <;> omega

theorem asciiLower_asciiLower (bech : List Nat) :
    asciiLower (asciiLower bech) = asciiLower bech := by
  simp only [asciiLower, List.map_map]
  exact List.map_congr_left (fun x _ => lowerChar_lowerChar x)

theorem asciiUpper_asciiUpper (bech : List Nat) :
    asciiUpper (asciiUpper bech) = asciiUpper bech := by
  simp only [asciiUpper, List.map_map]
  exact List.map_congr_left (fun x _ => upperChar_upperChar x)

theorem asciiLower_asciiUpper (bech : List Nat) :
    asciiLower (asciiUpper bech) = asciiLower bech := by
  simp only [asciiLower, asciiUpper, List.map_map]
  exact List.map_congr_left (fun x _ => lowerChar_upperChar x)

/-- Lower-casing and upper-casing an arbitrary string give identical decode
results in every field. -/
theorem decode_lower_eq_decode_upper (bech : List Nat) :
    bech32_decode (asciiLower bech) = bech32_decode (asciiUpper bech) := by
  by_cases hbad : bech.any (fun x => x < 33 ∨ 126 < x) = true
  · rw [bech32_decode, bech32_decode, if_pos (by rw [any_range_lower, hbad]),
      if_pos (by rw [any_range_upper, hbad])]
  · rw [bech32_decode, bech32_decode]
    conv_lhs => rw [if_neg (by rw [any_range_lower]; exact hbad),
      if_neg (fun hcon => hcon.1 (asciiLower_asciiLower bech))]
    conv_rhs => rw [if_neg (by rw [any_range_upper]; exact hbad),
      if_neg (fun hcon => hcon.2 (asciiUpper_asciiUpper bech))]
    rw [asciiLower_asciiLower, asciiLower_asciiUpper]

/-! ### Concrete vectors used by the claims -/

/-- The spec's concrete address string `"bc1qw508d6qejxtdg4y5r3zarvary0c5xw7kygt080"`
(also the first address in the probe's `__main__` list), as code points. -/
def VEC080 : List Nat :=
  [98, 99, 49, 113, 119, 53, 48, 56, 100, 54, 113, 101, 106, 120, 116, 100, 103, 52,
   121, 53, 114, 51, 122, 97, 114, 118, 97, 114, 121, 48, 99, 53, 120, 119, 55, 107,
   121, 103, 116, 48, 56, 48]

/-- The same string with its last character changed from `'0'` to `'1'`. -/
def VEC081 : List Nat :=
  [98, 99, 49, 113, 119, 53, 48, 56, 100, 54, 113, 101, 106, 120, 116, 100, 103, 52,
   121, 53, 114, 51, 122, 97, 114, 118, 97, 114, 121, 48, 99, 53, 120, 119, 55, 107,
   121, 103, 116, 48, 56, 49]

/-- The data values of `VEC080` after the alphabet mapping. -/
def DATA080 : List Nat :=
  [0, 14, 20, 15, 7, 13, 26, 0, 25, 18, 6, 11, 13, 8, 21, 4, 20, 3, 17, 2, 29, 3, 12,
   29, 3, 4, 15, 24, 20, 6, 14, 30, 22, 4, 8, 11, 15, 7, 15]

/-- `"bc1gmk9yu"`: the encoding of prefix `"bc"` with the empty payload. -/
def BCEMPTY : List Nat := [98, 99, 49, 103, 109, 107, 57, 121, 117]

/-- `"BC1GMK9YU"`: the same encoded string rendered in upper case. -/
def BCEMPTYUP : List Nat := [66, 67, 49, 71, 77, 75, 57, 89, 85]

/-! ### The claims -/

/-- C1 (amended): for a non-empty prefix of in-range characters with no
upper-case letter and a payload of 5-bit values, decoding the encoded string
succeeds with `valid = true`, returns the original prefix, and returns the
original payload followed by the six checksum values as the data sequence. -/
theorem c1_roundtrip (hrp payload : List Nat) (hne : hrp ≠ [])
    (hr : ∀ c ∈ hrp, 33 ≤ c ∧ c ≤ 126) (hlo : ∀ c ∈ hrp, ¬(65 ≤ c ∧ c ≤ 90))
    (hp : ∀ v ∈ payload, v < 32) :
    bech32_decode (bech32_encode hrp payload) =
      .ok (hrp, payload ++ bech32_create_checksum hrp payload, 1, true) :=
  decode_encode hrp payload hne hr hlo hp

/-- C1 counterexample: the claim fails as stated.  For the upper-case prefix
`"BC"` (non-empty, in-range, single case) the encoded string is mixed-case and
decoding raises; and for the lower-case prefix `"bc"` with payload `[0]`
decode does not return the bare payload, because the data it returns includes
the checksum. -/
theorem c1_counterexample :
    bech32_decode (bech32_encode [66, 67] []) = .error .mixedCase ∧
    bech32_decode (bech32_encode [98, 99] [0]) ≠ .ok ([98, 99], [0], 1, true) := by
  constructor
  · decide
  · decide

/-- C1 witness: the amended round-trip at `hrp = "bc"`, `payload = [0]`. -/
theorem c1_witness :
    (([98, 99] : List Nat) ≠ [] ∧ (∀ c ∈ ([98, 99] : List Nat), 33 ≤ c ∧ c ≤ 126) ∧
     (∀ c ∈ ([98, 99] : List Nat), ¬(65 ≤ c ∧ c ≤ 90)) ∧
     (∀ v ∈ ([0] : List Nat), v < 32)) ∧
    bech32_decode (bech32_encode [98, 99] [0]) =
      .ok ([98, 99], [0] ++ bech32_create_checksum [98, 99] [0], 1, true) :=
  ⟨⟨by decide, by decide, by decide, by decide⟩,
   c1_roundtrip [98, 99] [0] (by decide) (by decide) (by decide) (by decide)⟩

/-- C2 (amended): decoding the spec's concrete string succeeds without
exception and returns `hrp = "bc"`, but the checksum does not verify: the raw
polymod value is 284260763, not 1, so `valid = false`. -/
theorem c2_decode_vector :
    bech32_decode VEC080 = .ok ([98, 99], DATA080, 284260763, false) ∧
    (284260763 : Nat) ≠ 1 := by
  constructor
  · decide
  · decide

/-- C2 counterexample: at the claimed input the decoder reports
`hrp = "bc"` with raw checksum 284260763 and `valid = false`, not
checksum 1 and `valid = true` as the claim states. -/
theorem c2_counterexample :
    (bech32_decode VEC080).map (fun r => (r.1, r.2.2.1, r.2.2.2)) =
      .ok ([98, 99], 284260763, false) := by
  decide

/-- C3 (amended): for a lower-case string that decodes with `valid = true`,
substituting any single data-part symbol (any position after the last `'1'`)
by a different alphabet symbol yields a string that still decodes without
exception but with `valid = false` (and a raw polymod different from 1). -/
theorem c3_single_substitution {bech h d : List Nat} {pm : Nat}
    (hl : asciiLower bech = bech)
    (hdec : bech32_decode bech = .ok (h, d, pm, true))
    (j : Nat) (hj1 : (rfind bech 49).toNat < j) (hj2 : j < bech.length)
    (c : Nat) (hc : c ∈ CHARSET) (hcne : c ≠ bech.getD j 0) :
    ∃ d' pm', pm' ≠ 1 ∧ bech32_decode (bech.set j c) = .ok (h, d', pm', false) :=
  decode_set_invalid hl hdec j hj1 hj2 c hc hcne

/-- C3 counterexample: the claim fails as stated for upper-case valid
strings: `"BC1GMK9YU"` decodes with `valid = true`, but substituting its
first data symbol `'G'` by the alphabet symbol `'p'` produces a mixed-case
string and decoding raises `MixedCase` instead of returning `valid = false`. -/
theorem c3_counterexample :
    bech32_decode BCEMPTYUP = .ok ([98, 99], [8, 27, 22, 5, 4, 28], 1, true) ∧
    bech32_decode (BCEMPTYUP.set 3 112) = .error .mixedCase := by
  constructor
  · decide
  · decide

/-- C3 witness: substituting the first data symbol of `"bc1gmk9yu"`
(`'g'`, position 3) by `'p'` flips validity. -/
theorem c3_witness :
    (asciiLower BCEMPTY = BCEMPTY ∧
     bech32_decode BCEMPTY = .ok ([98, 99], [8, 27, 22, 5, 4, 28], 1, true) ∧
     (rfind BCEMPTY 49).toNat < 3 ∧ 3 < BCEMPTY.length ∧
     (112 : Nat) ∈ CHARSET ∧ (112 : Nat) ≠ BCEMPTY.getD 3 0) ∧
    ∃ d' pm', pm' ≠ 1 ∧ bech32_decode (BCEMPTY.set 3 112) =
      .ok ([98, 99], d', pm', false) :=
  ⟨⟨by decide, by decide, by decide, by decide, by decide, by decide⟩,
   @c3_single_substitution BCEMPTY [98, 99] [8, 27, 22, 5, 4, 28] 1 (by decide) (by decide)
     3 (by decide) (by decide) 112 (by decide) (by decide)⟩

/-- C4 (amended): for every input passing all four structural checks, decode
never raises on a checksum mismatch; it returns normally with the decoded
fields and `valid = (polymod == 1)`.  The claimed concrete input
`"...gt081"` is however not structurally valid: its trailing `'1'` becomes
the last separator with fewer than six characters after it, so decode raises
`InvalidSeparatorPosition`. -/
theorem c4_no_raise_on_checksum :
    (∀ bech : List Nat, bech.any (fun x => x < 33 ∨ 126 < x) = false →
      (asciiLower bech = bech ∨ asciiUpper bech = bech) →
      ¬(rfind (asciiLower bech) 49 < 1 ∨
        rfind (asciiLower bech) 49 + 7 > (((asciiLower bech).length : Int))) →
      (∀ c ∈ (asciiLower bech).drop ((rfind (asciiLower bech) 49).toNat + 1), c ∈ CHARSET) →
      ∃ h d pm, bech32_decode bech = .ok (h, d, pm, pm == 1)) ∧
    bech32_decode VEC081 = .error .invalidSeparatorPosition := by
  constructor
  · intro bech h1 h2 h3 h4
    exact ⟨_, _, _, bech32_decode_ok_of_checks h1 h2 h3 h4⟩
  · decide

/-- C4 counterexample: decoding `"bc1qw508d6qejxtdg4y5r3zarvary0c5xw7kygt081"`
raises `InvalidSeparatorPosition` instead of returning `valid = false`. -/
theorem c4_counterexample :
    bech32_decode VEC081 = .error .invalidSeparatorPosition := by
  decide

/-- C4 witness: the structurally valid string `VEC080` decodes without
exception, with `valid = (polymod == 1)`. -/
theorem c4_witness :
    (VEC080.any (fun x => x < 33 ∨ 126 < x) = false ∧
     (asciiLower VEC080 = VEC080 ∨ asciiUpper VEC080 = VEC080) ∧
     ¬(rfind (asciiLower VEC080) 49 < 1 ∨
       rfind (asciiLower VEC080) 49 + 7 > (((asciiLower VEC080).length : Int))) ∧
     (∀ c ∈ (asciiLower VEC080).drop ((rfind (asciiLower VEC080) 49).toNat + 1),
       c ∈ CHARSET)) ∧
    ∃ h d pm, bech32_decode VEC080 = .ok (h, d, pm, pm == 1) :=
  ⟨⟨by decide, by decide, by decide, by decide⟩,
   c4_no_raise_on_checksum.1 VEC080 (by decide) (by decide) (by decide) (by decide)⟩

/-- C5 (amended): for every successful decode, the returned data sequence is
the full alphabet-mapped data part — the six checksum values are not removed —
and it has at least six values; the payload is the prefix the caller obtains
by dropping the trailing six. -/
theorem c5_full_data {bech h d : List Nat} {pm : Nat} {v : Bool}
    (hdec : bech32_decode bech = .ok (h, d, pm, v)) :
    mapCharset ((asciiLower bech).drop ((rfind (asciiLower bech) 49).toNat + 1)) = .ok d ∧
    6 ≤ d.length := by
  obtain ⟨_, _, hg3, hg4, _, hmap, _, _⟩ := bech32_decode_ok_inv hdec
  refine ⟨hmap, ?_⟩
  have hlen := (mapCharset_ok_inv hmap).2
  rw [hlen, List.length_map, List.length_drop]
  omega

/-- C5 counterexample: decoding `"bc1gmk9yu"` returns all six mapped data
values, not the empty payload that removing the trailing six checksum values
would give. -/
theorem c5_counterexample :
    bech32_decode BCEMPTY = .ok ([98, 99], [8, 27, 22, 5, 4, 28], 1, true) ∧
    ([8, 27, 22, 5, 4, 28] : List Nat) ≠
      List.take (6 - 6) [8, 27, 22, 5, 4, 28] := by
  constructor
  · decide
  · decide

/-- C5 witness: the full-data property at `"bc1gmk9yu"`. -/
theorem c5_witness :
    bech32_decode BCEMPTY = .ok ([98, 99], [8, 27, 22, 5, 4, 28], 1, true) ∧
    (mapCharset ((asciiLower BCEMPTY).drop ((rfind (asciiLower BCEMPTY) 49).toNat + 1)) =
      .ok [8, 27, 22, 5, 4, 28] ∧
     6 ≤ ([8, 27, 22, 5, 4, 28] : List Nat).length) :=
  ⟨by decide,
   @c5_full_data BCEMPTY [98, 99] [8, 27, 22, 5, 4, 28] 1 true (by decide)⟩

/-- C6: decode splits at the last `'1'` of the case-folded input (`rfind`
returns the greatest index holding `'1'`); after the range and case checks
pass, it fails with `InvalidSeparatorPosition` exactly when that position is
below 1 or fewer than six characters follow it; and `decode("bc")` fails with
`InvalidSeparatorPosition`. -/
theorem c6_separator :
    (∀ bech : List Nat, bech.any (fun x => x < 33 ∨ 126 < x) = false →
      (asciiLower bech = bech ∨ asciiUpper bech = bech) →
      (bech32_decode bech = .error .invalidSeparatorPosition ↔
        (rfind (asciiLower bech) 49 < 1 ∨
         ((asciiLower bech).length : Int) - rfind (asciiLower bech) 49 - 1 < 6))) ∧
    (∀ l : List Nat, 49 ∈ l →
      0 ≤ rfind l 49 ∧ (rfind l 49).toNat < l.length ∧
      l.getD (rfind l 49).toNat 0 = 49 ∧
      ∀ j, j < l.length → l.getD j 0 = 49 → j ≤ (rfind l 49).toNat) ∧
    bech32_decode [98, 99] = .error .invalidSeparatorPosition := by
  refine ⟨?_, fun l hl => rfind_mem hl, by decide⟩
  intro bech h1 h2
  rw [decode_sep_error_iff h1 h2]
  omega

/-- C6 witness: the separator condition at `"bc"` (no `'1'`, so `rfind`
is `-1` and decode fails), and the last-occurrence property at
`"b1c1"`-like data. -/
theorem c6_witness :
    (([98, 99] : List Nat).any (fun x => x < 33 ∨ 126 < x) = false ∧
     (asciiLower [98, 99] = [98, 99] ∨ asciiUpper [98, 99] = [98, 99]) ∧
     (49 : Nat) ∈ ([98, 49, 99, 49] : List Nat)) ∧
    (bech32_decode [98, 99] = .error .invalidSeparatorPosition ↔
      (rfind (asciiLower [98, 99]) 49 < 1 ∨
       ((asciiLower [98, 99]).length : Int) - rfind (asciiLower [98, 99]) 49 - 1 < 6)) ∧
    (0 ≤ rfind [98, 49, 99, 49] 49 ∧ (rfind [98, 49, 99, 49] 49).toNat < 4 ∧
     List.getD [98, 49, 99, 49] (rfind [98, 49, 99, 49] 49).toNat 0 = 49 ∧
     ∀ j, j < ([98, 49, 99, 49] : List Nat).length →
       List.getD [98, 49, 99, 49] j 0 = 49 → j ≤ (rfind [98, 49, 99, 49] 49).toNat) :=
  ⟨⟨by decide, by decide, by decide⟩,
   c6_separator.1 [98, 99] (by decide) (by decide),
   c6_separator.2.1 [98, 49, 99, 49] (by decide)⟩

/-- C7: a string of in-range characters containing both an upper-case and a
lower-case letter fails with `MixedCase`; no separator, alphabet or checksum
condition is consulted. -/
theorem c7_mixed_case (bech : List Nat)
    (h1 : ∀ c ∈ bech, 33 ≤ c ∧ c ≤ 126)
    (hu : ∃ c ∈ bech, 65 ≤ c ∧ c ≤ 90)
    (hlw : ∃ c ∈ bech, 97 ≤ c ∧ c ≤ 122) :
    bech32_decode bech = .error .mixedCase :=
  decode_mixed_case h1 hu hlw

/-- C7 witness: `"aB"` is rejected as mixed case. -/
theorem c7_witness :
    ((∀ c ∈ ([97, 66] : List Nat), 33 ≤ c ∧ c ≤ 126) ∧
     (∃ c ∈ ([97, 66] : List Nat), 65 ≤ c ∧ c ≤ 90) ∧
     (∃ c ∈ ([97, 66] : List Nat), 97 ≤ c ∧ c ≤ 122)) ∧
    bech32_decode [97, 66] = .error .mixedCase :=
  ⟨⟨by decide, by decide, by decide⟩,
   c7_mixed_case [97, 66] (by decide) (by decide) (by decide)⟩

/-- C8: for every string, decoding its lower-cased form and its upper-cased
form gives identical results in every field (the decoder case-folds before
any further processing, and never returns the original input). -/
theorem c8_case_insensitive (s : List Nat) :
    bech32_decode (asciiLower s) = bech32_decode (asciiUpper s) :=
  decode_lower_eq_decode_upper s

/-- C9: for 5-bit input values the polymod accumulator always fits in 30
bits: every step preserves the bound and the final value is below `2^30`. -/
theorem c9_polymod_bound :
    (∀ values : List Nat, (∀ v ∈ values, v < 32) → polymod values < 2 ^ 30) ∧
    (∀ chk v : Nat, chk < 2 ^ 30 → v < 32 → polymodStep chk v < 2 ^ 30) :=
  ⟨fun _ h => polymod_lt h, fun _ _ h1 h2 => polymodStep_lt h1 h2⟩

/-- C9 witness: the bound at the concrete value sequence `[31, 0, 7]` and at
one concrete step. -/
theorem c9_witness :
    ((∀ v ∈ ([31, 0, 7] : List Nat), v < 32) ∧ (5 : Nat) < 2 ^ 30 ∧ (31 : Nat) < 32) ∧
    polymod [31, 0, 7] < 2 ^ 30 ∧ polymodStep 5 31 < 2 ^ 30 :=
  ⟨⟨by decide, by decide, by decide⟩,
   c9_polymod_bound.1 [31, 0, 7] (by decide),
   c9_polymod_bound.2 5 31 (by decide) (by decide)⟩

/-- C10: decoding the empty string fails with `InvalidSeparatorPosition`:
the character-range and mixed-case checks pass vacuously and the separator
search fails (`rfind` returns `-1`). -/
theorem c10_empty_string :
    bech32_decode [] = .error .invalidSeparatorPosition := by
  decide
